import Mathlib

/-!
Verification of the entwine inference + configuration-resolution subsystem.

The development shallowly embeds `src/entwine/util/inference.cpp` and
`src/entwine/tree/config-parser.cpp`.  Double-precision values are modelled
as rationals; the external capabilities (PDAL executor, arbiter endpoint,
dimension registry, square root used by vector normalization) are passed in
as explicit function parameters.  Types whose implementation is not part of
the provided sources (`Point`, `Bounds`, `Delta`, `Subset`, helpers of
`arbiter` and `matrix`) are modelled from the specification and are marked
as such in their doc comments.
-/

namespace Entwine

/-- Modelled from the spec: a point is a triple of double-precision
coordinates (here rationals) supporting componentwise min, grow, dot,
cross, normalize, scalar multiply. -/
structure Point where
  x : ℚ
  y : ℚ
  z : ℚ
deriving DecidableEq, Repr

/-- Modelled from the spec: componentwise minimum (`Point::min`). -/
def Point.min (a b : Point) : Point :=
  ⟨Min.min a.x b.x, Min.min a.y b.y, Min.min a.z b.z⟩

/-- Modelled from the spec: componentwise maximum. -/
def Point.max (a b : Point) : Point :=
  ⟨Max.max a.x b.x, Max.max a.y b.y, Max.max a.z b.z⟩

/-- Modelled from the spec: componentwise subtraction. -/
def Point.sub (a b : Point) : Point :=
  ⟨a.x - b.x, a.y - b.y, a.z - b.z⟩

/-- Modelled from the spec: scalar multiple. -/
def Point.smul (c : ℚ) (a : Point) : Point :=
  ⟨c * a.x, c * a.y, c * a.z⟩

/-- Modelled from the spec: dot product (`Point::dot`). -/
def Point.dot (a b : Point) : ℚ :=
  a.x * b.x + a.y * b.y + a.z * b.z

/-- Modelled from the spec: cross product (`Point::cross`). -/
def Point.cross (a b : Point) : Point :=
  ⟨a.y * b.z - a.z * b.y, a.z * b.x - a.x * b.z, a.x * b.y - a.y * b.x⟩

/-- Modelled from the spec: `Point::apply` maps a scalar function over the
three coordinates (used with the offset-selection lambda in
`Inference::aggregate`). -/
def Point.apply (f : ℚ → ℚ) (a : Point) : Point :=
  ⟨f a.x, f a.y, f a.z⟩

/-- The origin point; `Offset(0)` in the source. -/
def Point.zero : Point := ⟨0, 0, 0⟩

/-- Modelled from the spec: an axis-aligned box (min corner, max corner). -/
structure Bounds where
  min : Point
  max : Point
deriving DecidableEq, Repr

/-- Modelled from the spec: `Bounds::grow(Point)` extends the box to
contain a point. -/
def Bounds.growP (b : Bounds) (p : Point) : Bounds :=
  ⟨Point.min b.min p, Point.max b.max p⟩

/-- Modelled from the spec: `Bounds::grow(Bounds)` extends the box to
contain another box. -/
def Bounds.grow (b c : Bounds) : Bounds :=
  ⟨Point.min b.min c.min, Point.max b.max c.max⟩

/-- Modelled from the spec: `Bounds::mid()`, the box midpoint. -/
def Bounds.mid (b : Bounds) : Point :=
  ⟨(b.min.x + b.max.x) / 2, (b.min.y + b.max.y) / 2, (b.min.z + b.max.z) / 2⟩

/-- Containment of one box in another, written componentwise; this is the
`⊆` relation of the specification's invariants. -/
def Bounds.contains (outer inner : Bounds) : Prop :=
  outer.min.x ≤ inner.min.x ∧ outer.min.y ≤ inner.min.y ∧
  outer.min.z ≤ inner.min.z ∧ inner.max.x ≤ outer.max.x ∧
  inner.max.y ≤ outer.max.y ∧ inner.max.z ≤ outer.max.z

instance (outer inner : Bounds) : Decidable (Bounds.contains outer inner) := by
  unfold Bounds.contains; infer_instance

/-- The value of `std::numeric_limits<double>::max()` as an exact rational. -/
def dblMax : ℚ := 2 ^ 1024 - 2 ^ 971

/-- The sentinel expander bounds of `inference.cpp`: min at the largest
double, max at the lowest, so that any grow produces correct results. -/
def expander : Bounds :=
  ⟨⟨dblMax, dblMax, dblMax⟩, ⟨-dblMax, -dblMax, -dblMax⟩⟩

/-- Modelled from the spec: a delta is a fixed-point quantization
`{ scale, offset }` with `q = round((p - offset) / scale)`. -/
structure Delta where
  scale : Point
  offset : Point
deriving DecidableEq, Repr

/-- Modelled from the spec: quantization of a single point,
`q = round((p - offset) / scale)` on every axis. -/
def Point.deltify (p : Point) (d : Delta) : Point :=
  ⟨(round ((p.x - d.offset.x) / d.scale.x) : ℤ),
   (round ((p.y - d.offset.y) / d.scale.y) : ℤ),
   (round ((p.z - d.offset.z) / d.scale.z) : ℤ)⟩

/-- Modelled from the spec: `Bounds::deltify(delta)` applies the
quantization to both corners. -/
def Bounds.deltify (b : Bounds) (d : Delta) : Bounds :=
  ⟨b.min.deltify d, b.max.deltify d⟩

/-- File status as in the data model. -/
inductive Status where
  | outstanding
  | inserted
  | omitted
  | error
deriving DecidableEq, Repr

/-- The per-file record filled in by the probe.  `srs` is carried as its
WKT string (empty when unset), `metadata` as an uninterpreted string. -/
structure FileInfo where
  path : String
  status : Status
  numPoints : ℕ
  bounds : Option Bounds
  srs : String
  metadata : Option String
deriving DecidableEq, Repr

/-- A fresh record for a path, as built by the `FileInfo(path)` constructor. -/
def FileInfo.fresh (p : String) : FileInfo :=
  ⟨p, Status.outstanding, 0, none, "", none⟩

/-- Truncation of a double toward zero, as performed by the C++ conversion
`const int64_t v(d)` in `Inference::aggregate`. -/
def qtrunc (q : ℚ) : ℤ :=
  if 0 ≤ q then ⌊q⌋ else ⌈q⌉

/-- The per-axis offset selection of `Inference::aggregate`: truncate the
midpoint to `v`, keep it if `v / 10 * 10` (C++ truncating division) gives
back the midpoint, otherwise take `(v + 10) / 10 * 10`. -/
def chooseOff (d : ℚ) : ℚ :=
  let v : ℤ := qtrunc d
  if ((Int.tdiv v 10 * 10 : ℤ) : ℚ) = d then (v : ℚ)
  else ((Int.tdiv (v + 10) 10 * 10 : ℤ) : ℚ)

/-- Result of `Inference::aggregate`: the member state it writes
(`m_numPoints`, `m_bounds`, `m_srsList`, the possibly updated `m_delta`,
and the possibly rewritten `m_fileInfo`). -/
structure AggResult where
  numPoints : ℕ
  bounds : Bounds
  srsList : List String
  delta : Option Delta
  fileInfo : List FileInfo
deriving DecidableEq, Repr

/-- One step of the aggregation loop body for the SRS list: append a
file's WKT string if nonempty and not already present. -/
def srsStep (acc : List String) (f : FileInfo) : List String :=
  if f.srs ≠ "" ∧ acc.count f.srs = 0 then acc ++ [f.srs] else acc

/-- The bounds accumulation of the aggregation loop: grow over every file
record that has bounds, starting from the expander sentinel. -/
def boundsFold (files : List FileInfo) : Bounds :=
  files.foldl
    (fun b f => match f.bounds with
      | some c => b.grow c
      | none => b)
    expander

/-- The point-count accumulation of the aggregation loop. -/
def pointsFold (files : List FileInfo) : ℕ :=
  files.foldl (fun a f => a + f.numPoints) 0

/-- `Inference::aggregate`: sum the counts, fold the bounds from the
expander, collect distinct SRS strings, and if a delta is present choose
its offset from the global midpoint and rewrite every file's bounds via
`deltify`. -/
def Inference.aggregate (files : List FileInfo) (delta : Option Delta) :
    AggResult :=
  let numPoints := pointsFold files
  let bounds := boundsFold files
  let srsList := files.foldl srsStep []
  match delta with
  | none => ⟨numPoints, bounds, srsList, none, files⟩
  | some d =>
      let d' : Delta := ⟨d.scale, Point.apply chooseOff bounds.mid⟩
      let files' := files.map (fun f =>
        match f.bounds with
        | some c => { f with bounds := some (c.deltify d') }
        | none => f)
      ⟨numPoints, bounds, srsList, some d', files'⟩

/-- A preview as returned by the reader capability (external interface):
numPoints, bounds, dimension names, SRS, optional scale, format metadata. -/
structure Preview where
  numPoints : ℕ
  bounds : Bounds
  srs : String
  scale : Option Point
  dimNames : List String
  metadata : String
deriving DecidableEq, Repr

/-- The mutex-guarded shared inference state: `m_delta`, `m_dimSet`
(membership set) and `m_dimVec` (insertion order). -/
structure SharedState where
  delta : Option Delta
  dimSet : List String
  dimVec : List String
deriving DecidableEq, Repr

/-- The shared state of a freshly constructed `Inference`. -/
def SharedState.init : SharedState := ⟨none, [], []⟩

/-- The fatal error kinds thrown by the inference run. -/
inductive InferErr where
  | invalidScale (path : String)
  | noValidInputs
  | zeroPoints
  | emptySchema
  | noBounds
  | missingBounds
  | doubleRun
deriving DecidableEq, Repr

/-- The scale-merge portion of the locked metadata merge in
`Inference::add`: reject a scale with a zero component, min-reduce into an
existing delta, or initialize the delta from the file's scale when delta
is allowed. -/
def Inference.mergeScale (allowDelta : Bool) (path : String)
    (delta : Option Delta) (scale : Point) : Except InferErr (Option Delta) :=
  if scale.x = 0 ∨ scale.y = 0 ∨ scale.z = 0 then
    Except.error (InferErr.invalidScale path)
  else
    match delta with
    | some d => Except.ok (some ⟨Point.min d.scale scale, d.offset⟩)
    | none =>
        if allowDelta then Except.ok (some ⟨scale, Point.zero⟩)
        else Except.ok none

/-- The dimension-name merge of the locked section: append names not yet
in `m_dimSet` to both the set and the ordered vector. -/
def Inference.mergeDims (st : SharedState) (names : List String) : SharedState :=
  names.foldl
    (fun s d =>
      if s.dimSet.count d = 0 then
        ⟨s.delta, s.dimSet ++ [d], s.dimVec ++ [d]⟩
      else s)
    st

/-- The whole locked section of `Inference::add` run on a preview: fold
the SRS into the file record, merge the scale, merge the dimension
names. -/
def Inference.mergePreview (allowDelta : Bool) (p : Preview)
    (fi : FileInfo) (st : SharedState) :
    Except InferErr (FileInfo × SharedState) :=
  let fi' := { fi with srs := p.srs }
  match p.scale with
  | some s =>
      match Inference.mergeScale allowDelta fi'.path st.delta s with
      | Except.error e => Except.error e
      | Except.ok delta' =>
          Except.ok (fi', Inference.mergeDims { st with delta := delta' } p.dimNames)
  | none => Except.ok (fi', Inference.mergeDims st p.dimNames)

/-- The running bounds of a full scan: grow from the expander sentinel
over each streamed point. -/
def scanBounds (pts : List Point) : Bounds :=
  pts.foldl Bounds.growP expander

/-- The `update` lambda of `Inference::add`: record count and bounds in
the file record, and metadata when one is supplied. -/
def Inference.update (fi : FileInfo) (numPoints : ℕ) (bounds : Bounds)
    (metadata : Option String) : FileInfo :=
  match metadata with
  | some m =>
      { fi with numPoints := numPoints, bounds := some bounds,
                metadata := some m }
  | none => { fi with numPoints := numPoints, bounds := some bounds }

/-- `Inference::add` for one file.  `preview` is the executor's preview
answer and `runResult` the stream of points of a successful
`Executor::run` (`none` when the scan fails, in which case the record is
left untouched). -/
def Inference.add (trustHeaders allowDelta : Bool) (preview : Option Preview)
    (runResult : Option (List Point)) (fi : FileInfo) (st : SharedState) :
    Except InferErr (FileInfo × SharedState) :=
  match preview with
  | some p =>
      match Inference.mergePreview allowDelta p fi st with
      | Except.error e => Except.error e
      | Except.ok (fi₁, st₁) =>
          if trustHeaders then
            Except.ok
              (Inference.update fi₁ p.numPoints p.bounds (some p.metadata), st₁)
          else
            match runResult with
            | some pts =>
                Except.ok
                  (Inference.update fi₁ pts.length (scanBounds pts) none, st₁)
            | none => Except.ok (fi₁, st₁)
  | none =>
      match runResult with
      | some pts =>
          Except.ok (Inference.update fi pts.length (scanBounds pts) none, st)
      | none => Except.ok (fi, st)

/-- The scale merges performed over a sequence of probed files, each
declaring a scale, in probe order. -/
def Inference.mergeScales (allowDelta : Bool) (delta : Option Delta) :
    List (String × Point) → Except InferErr (Option Delta)
  | [] => Except.ok delta
  | s :: rest =>
      match Inference.mergeScale allowDelta s.1 delta s.2 with
      | Except.error e => Except.error e
      | Except.ok d' => Inference.mergeScales allowDelta d' rest

/-- Dimension type classes of the data model. -/
inductive DimKind where
  | signed
  | unsigned
  | floating
deriving DecidableEq, Repr

/-- A schema entry: name, type class, byte size. -/
structure DimInfo where
  name : String
  kind : DimKind
  size : ℕ
deriving DecidableEq, Repr

/-- Total stride of a schema: the sum of the dimension sizes
(`Schema::pointSize`). -/
def stride (dims : List DimInfo) : ℕ := (dims.map DimInfo.size).sum

/-- The dimension lookup of `Inference::makeSchema`: consult the reader
capability's registry and fall back to floating/8 when the lookup fails. -/
def lookupDim (registry : String → Option (DimKind × ℕ)) (name : String) :
    DimInfo :=
  match registry name with
  | some t => ⟨name, t.1, t.2⟩
  | none => ⟨name, DimKind.floating, 8⟩

/-- Modelled from the spec: `Bounds::cubeify(delta)` expands the box to a
cube centered on the delta origin, just large enough to contain it. -/
def Bounds.cubeify (b : Bounds) (d : Delta) : Bounds :=
  let c := d.offset
  let r :=
    Max.max
      (Max.max (Max.max |b.min.x - c.x| |b.max.x - c.x|)
        (Max.max |b.min.y - c.y| |b.max.y - c.y|))
      (Max.max |b.min.z - c.z| |b.max.z - c.z|)
  ⟨⟨c.x - r, c.y - r, c.z - r⟩, ⟨c.x + r, c.y + r, c.z + r⟩⟩

/-- Modelled from the spec: the integer size chosen for one quantized
axis, 4 bytes when the quantized cube extent fits a signed 32-bit range
and 8 otherwise. -/
def axisSize (lo hi scale offset : ℚ) : ℕ :=
  let a : ℤ := round ((lo - offset) / scale)
  let b : ℤ := round ((hi - offset) / scale)
  if -(2 ^ 31) ≤ a ∧ b ≤ 2 ^ 31 - 1 then 4 else 8

/-- Modelled from the spec: `Schema::deltify` replaces X, Y and Z with
signed integer dimensions sized to cover the cubified bounds. -/
def Schema.deltify (cube : Bounds) (d : Delta) (dims : List DimInfo) :
    List DimInfo :=
  dims.map (fun di =>
    if di.name = "X" then
      ⟨"X", DimKind.signed, axisSize cube.min.x cube.max.x d.scale.x d.offset.x⟩
    else if di.name = "Y" then
      ⟨"Y", DimKind.signed, axisSize cube.min.y cube.max.y d.scale.y d.offset.y⟩
    else if di.name = "Z" then
      ⟨"Z", DimKind.signed, axisSize cube.min.z cube.max.z d.scale.z d.offset.z⟩
    else di)

/-- `Inference::makeSchema`: map the aggregated names through the
registry, and under a delta rebuild X, Y, Z over the cubified bounds. -/
def Inference.makeSchema (registry : String → Option (DimKind × ℕ))
    (dimVec : List String) (delta : Option Delta) (bounds : Bounds) :
    List DimInfo :=
  let dims := dimVec.map (lookupDim registry)
  match delta with
  | some d => Schema.deltify (bounds.cubeify d) d dims
  | none => dims

/-- A 4x4 matrix in row-major order, sixteen entries. -/
def Transformation : Type := List ℚ

instance : DecidableEq Transformation := by
  unfold Transformation; infer_instance

/-- Entry access of a row-major 4x4 matrix. -/
def matGet (m : Transformation) (i j : ℕ) : ℚ := m.getD (i * 4 + j) 0

/-- Modelled from the spec: `matrix::multiply` of two row-major 4x4
matrices. -/
def matMul (a b : Transformation) : Transformation :=
  (List.range 16).map (fun n =>
    let i := n / 4
    let j := n % 4
    matGet a i 0 * matGet b 0 j + matGet a i 1 * matGet b 1 j +
      matGet a i 2 * matGet b 2 j + matGet a i 3 * matGet b 3 j)

/-- Modelled from the spec: `Point::normalize` divides a vector by its
length.  The square root of the squared length is supplied by the `sq`
parameter, since exact square roots leave the rationals. -/
def Point.normalize (sq : ℚ → ℚ) (p : Point) : Point :=
  Point.smul (1 / sq (Point.dot p p)) p

/-- `Inference::calcTransformation`: build the up/north/east rotation from
the bounds midpoint, then translate the rotated bounds midpoint to the
origin; `transform` is the executor's geometric transform capability. -/
def Inference.calcTransformation (sq : ℚ → ℚ)
    (transform : Bounds → Transformation → Bounds) (bounds : Bounds) :
    Transformation :=
  let p := bounds.mid
  let up := Point.normalize sq p
  let northPole : Point := ⟨0, 0, 1⟩
  let d := Point.dot up northPole
  let proj := Point.smul d up
  let north := Point.normalize sq (Point.sub northPole proj)
  let east := Point.cross north up
  let rotM : Transformation :=
    [east.x, east.y, east.z, 0,
     north.x, north.y, north.z, 0,
     up.x, up.y, up.z, 0,
     0, 0, 0, 1]
  let tc := transform bounds rotM
  let trM : Transformation :=
    [1, 0, 0, -tc.mid.x,
     0, 1, 0, -tc.mid.y,
     0, 0, 1, -tc.mid.z,
     0, 0, 0, 1]
  matMul trM rotM

/-- The transformation exactly as the specification words it: `k'` is the
normalized midpoint, `n_raw` projects the north pole onto the tangent
plane, `j'` normalizes it, `i' = j' x k'`, R stacks the three rows, and T
translates the midpoint of the R-transformed bounds to the origin;
the result is `M = T * R`. -/
def specTransformation (sq : ℚ → ℚ)
    (transform : Bounds → Transformation → Bounds) (bounds : Bounds) :
    Transformation :=
  let p := bounds.mid
  let kHat := Point.normalize sq p
  let northPole : Point := ⟨0, 0, 1⟩
  let nRaw := Point.sub northPole (Point.smul (Point.dot northPole kHat) kHat)
  let jHat := Point.normalize sq nRaw
  let iHat := Point.cross jHat kHat
  let r : Transformation :=
    [iHat.x, iHat.y, iHat.z, 0,
     jHat.x, jHat.y, jHat.z, 0,
     kHat.x, kHat.y, kHat.z, 0,
     0, 0, 0, 1]
  let m := (transform bounds r).mid
  let t : Transformation :=
    [1, 0, 0, -m.x,
     0, 1, 0, -m.y,
     0, 0, 1, -m.z,
     0, 0, 0, 1]
  matMul t r

/-- The per-file loop of the cesium branch of `Inference::go`: fail on a
file without bounds, otherwise transform its bounds and grow the global
accumulator (which starts from the expander). -/
def Inference.cesiumLoop (transform : Bounds → Transformation → Bounds)
    (t : Transformation) :
    List FileInfo → Bounds → Except InferErr (List FileInfo × Bounds)
  | [], acc => Except.ok ([], acc)
  | f :: rest, acc =>
      match f.bounds with
      | none => Except.error InferErr.missingBounds
      | some b =>
          let b' := transform b t
          match Inference.cesiumLoop transform t rest (acc.grow b') with
          | Except.error e => Except.error e
          | Except.ok (fs, bounds') =>
              Except.ok ({ f with bounds := some b' } :: fs, bounds')

/-- One input file as `Inference::go` sees it: the fresh record plus the
executor's per-path answers (`Executor::good`, the preview, and the point
stream of a successful scan). -/
structure FileEntry where
  info : FileInfo
  good : Bool
  preview : Option Preview
  runResult : Option (List Point)
deriving DecidableEq, Repr

/-- The probe loop of `Inference::go`: files rejected by the executor are
marked omitted; accepted files run `Inference::add`; `valid` records
whether any file was accepted.  Task failures surface at the pool join,
modelled by propagating the first error. -/
def Inference.probeAll (trustHeaders allowDelta : Bool) :
    List FileEntry → SharedState →
    Except InferErr (List FileInfo × SharedState × Bool)
  | [], st => Except.ok ([], st, false)
  | e :: rest, st =>
      if e.good then
        match Inference.add trustHeaders allowDelta e.preview e.runResult
            e.info st with
        | Except.error err => Except.error err
        | Except.ok (fi, st') =>
            match Inference.probeAll trustHeaders allowDelta rest st' with
            | Except.error err => Except.error err
            | Except.ok (fis, st'', _) => Except.ok (fi :: fis, st'', true)
      else
        match Inference.probeAll trustHeaders allowDelta rest st with
        | Except.error err => Except.error err
        | Except.ok (fis, st', valid) =>
            Except.ok ({ e.info with status := Status.omitted } :: fis,
              st', valid)

/-- The result members of a completed run, the handoff artifact. -/
structure GoResult where
  fileInfo : List FileInfo
  numPoints : ℕ
  bounds : Bounds
  schema : List DimInfo
  delta : Option Delta
  srsList : List String
  transformation : Option Transformation
deriving DecidableEq

/-- The members backing the accessors: `m_numPoints`, `m_bounds`,
`m_schema` (unset until produced) and the `m_done` flag. -/
structure InfState where
  numPoints : Option ℕ
  bounds : Option Bounds
  schema : Option (List DimInfo)
  done : Bool
deriving DecidableEq

/-- Member state of a freshly constructed `Inference`. -/
def InfState.initial : InfState := ⟨none, none, none, false⟩

/-- `Inference::go`, also exposing the member state left behind when the
run aborts (after a cesium-stage failure the partially transformed
members are not tracked; no claim inspects them).  Parameters: the
executor's registry, square root, and geometric transform; `ranBefore`
models a second invocation (`m_pool` already set). -/
def Inference.goState (trustHeaders allowDelta cesiumify : Bool)
    (registry : String → Option (DimKind × ℕ)) (sq : ℚ → ℚ)
    (transform : Bounds → Transformation → Bounds)
    (entries : List FileEntry) (ranBefore : Bool) :
    InfState × Except InferErr GoResult :=
  if ranBefore then (InfState.initial, Except.error InferErr.doubleRun)
  else
    match Inference.probeAll trustHeaders allowDelta entries
        SharedState.init with
    | Except.error e => (InfState.initial, Except.error e)
    | Except.ok (files, st, valid) =>
        if !valid then (InfState.initial, Except.error InferErr.noValidInputs)
        else
          let agg := Inference.aggregate files st.delta
          let schema :=
            Inference.makeSchema registry st.dimVec agg.delta agg.bounds
          let s₁ : InfState :=
            ⟨some agg.numPoints, some agg.bounds, some schema, false⟩
          if agg.numPoints = 0 then (s₁, Except.error InferErr.zeroPoints)
          else if stride schema = 0 then
            (s₁, Except.error InferErr.emptySchema)
          else if agg.bounds = expander then
            (s₁, Except.error InferErr.noBounds)
          else if cesiumify then
            let t := Inference.calcTransformation sq transform agg.bounds
            match Inference.cesiumLoop transform t agg.fileInfo expander with
            | Except.error e => (s₁, Except.error e)
            | Except.ok (files', bounds') =>
                ({ s₁ with bounds := some bounds', done := true },
                  Except.ok ⟨files', agg.numPoints, bounds', schema,
                    agg.delta, agg.srsList, some t⟩)
          else
            ({ s₁ with done := true },
              Except.ok ⟨agg.fileInfo, agg.numPoints, agg.bounds, schema,
                agg.delta, agg.srsList, none⟩)

/-- `Inference::go` proper: the outcome of the run. -/
def Inference.go (trustHeaders allowDelta cesiumify : Bool)
    (registry : String → Option (DimKind × ℕ)) (sq : ℚ → ℚ)
    (transform : Bounds → Transformation → Bounds)
    (entries : List FileEntry) (ranBefore : Bool) :
    Except InferErr GoResult :=
  (Inference.goState trustHeaders allowDelta cesiumify registry sq transform
    entries ranBefore).2

/-- The largest per-file point count, as computed in
`ConfigParser::getBuilder`. -/
def maxNumPoints (fileInfo : List FileInfo) : ℕ :=
  fileInfo.foldl (fun m f => Max.max m f.numPoints) 0

/-- The PointId byte size chosen in `ConfigParser::getBuilder`. -/
def pointIdSize (fileInfo : List FileInfo) : ℕ :=
  if maxNumPoints fileInfo ≤ 2 ^ 32 - 1 then 4 else 8

/-- The OriginId byte size chosen in `ConfigParser::getBuilder`. -/
def originSize (fileInfo : List FileInfo) : ℕ :=
  if fileInfo.length ≤ 2 ^ 32 - 1 then 4 else 8

/-- The synthetic-dimension append of `ConfigParser::getBuilder`. -/
def appendSyntheticDims (dims : List DimInfo) (fileInfo : List FileInfo) :
    List DimInfo :=
  dims ++ [⟨"PointId", DimKind.unsigned, pointIdSize fileInfo⟩,
    ⟨"OriginId", DimKind.unsigned, originSize fileInfo⟩]

/-- A serialized `InferenceResult` as read back from an
`.entwine-inference` file. -/
structure InferenceJson where
  fileInfo : List FileInfo
  schema : List DimInfo
  bounds : Bounds
  numPoints : ℕ
  reprojection : Option String
  scale : Option Point
  offset : Option Point
deriving DecidableEq, Repr

/-- The shapes the `input` configuration key can take. -/
inductive InputVal where
  | strV (s : String)
  | arrV (l : List String)
  | fileInfoV (l : List FileInfo)
deriving DecidableEq, Repr

/-- The configuration keys touched by `ConfigParser::normalizeInput`;
`none` models an absent member. -/
structure Config where
  input : InputVal
  schema : Option (List DimInfo)
  bounds : Option Bounds
  numPointsHint : Option ℕ
  reprojection : Option String
  scale : Option Point
  offset : Option Point
deriving DecidableEq, Repr

/-- Modelled from the spec: `arbiter::getExtension`, the substring after
the final dot (empty when the path has no dot). -/
def getExtension (s : String) : String :=
  if s.data.contains '.' then
    String.mk ((s.data.reverse.takeWhile (fun c => c ≠ '.')).reverse)
  else ("")

/-- `ConfigParser::directorify`: append `*` to directories and `/*` to
dotless basenames.  Directory detection and basename extraction belong to
arbiter and are passed in. -/
def ConfigParser.directorify (isDir : String → Bool)
    (basename : String → String) (rawPath : String) : String :=
  if rawPath.length ≠ 0 ∧ rawPath.back ≠ '*' then
    if isDir rawPath then rawPath ++ "*"
    else if ¬ (basename rawPath).contains '.' then rawPath ++ "/*"
    else rawPath
  else rawPath

/-- The inference-adoption branch of `ConfigParser::normalizeInput`:
replace the input with the serialized fileInfo; fill schema, bounds and
numPointsHint only when absent; copy the reprojection whenever the
inference file has one; and copy absent scale/offset when the inference
file carries a delta. -/
def ConfigParser.adoptInference (inf : InferenceJson) (cfg : Config) :
    Config :=
  { cfg with
    input := InputVal.fileInfoV inf.fileInfo
    schema := match cfg.schema with
      | some x => some x
      | none => some inf.schema
    bounds := match cfg.bounds with
      | some x => some x
      | none => some inf.bounds
    numPointsHint := match cfg.numPointsHint with
      | some x => some x
      | none => some inf.numPoints
    reprojection := match inf.reprojection with
      | some r => some r
      | none => cfg.reprojection
    scale :=
      if (inf.scale.isSome ∨ inf.offset.isSome) ∧ cfg.scale.isNone
      then inf.scale else cfg.scale
    offset :=
      if (inf.scale.isSome ∨ inf.offset.isSome) ∧ cfg.offset.isNone
      then inf.offset else cfg.offset }

/-- `ConfigParser::normalizeInput`: an input string with extension
`entwine-inference` adopts the serialized result; any other input is
directorified and resolved into a flat path list.  `resolve` is the
arbiter glob expansion and `fetch` reads and parses the inference file. -/
def ConfigParser.normalizeInput (resolve : String → List String)
    (isDir : String → Bool) (basename : String → String)
    (fetch : String → InferenceJson) (cfg : Config) : Config :=
  match cfg.input with
  | InputVal.strV s =>
      if getExtension s = "entwine-inference" then
        ConfigParser.adoptInference (fetch s) cfg
      else
        { cfg with
          input := InputVal.arrV
            (resolve (ConfigParser.directorify isDir basename s)) }
  | InputVal.arrV l =>
      { cfg with
        input := InputVal.arrV
          (l.foldl
            (fun acc p =>
              acc ++ resolve (ConfigParser.directorify isDir basename p))
            []) }
  | InputVal.fileInfoV _ =>
      { cfg with
        input := InputVal.arrV
          (resolve (ConfigParser.directorify isDir basename (""))) }

/-- The subset parameters exposed by the `Subset` class (external to the
provided sources): its minimum null depth and, per points-per-chunk
value, its minimum base depth. -/
structure SubsetSpec where
  minimumNullDepth : ℕ
  minimumBaseDepth : ℕ → ℕ

/-- The depth keys touched by `ConfigParser::maybeAccommodateSubset`. -/
structure TreeConfig where
  nullDepth : ℕ
  baseDepth : ℕ
  bumpDepth : Option ℕ
  pointsPerChunk : ℕ
deriving DecidableEq, Repr

/-- `ConfigParser::maybeAccommodateSubset`: with a subset configured,
raise `nullDepth` and `baseDepth` to the subset minima when below them,
preserving a bumped `baseDepth`'s original value in `bumpDepth`. -/
def ConfigParser.maybeAccommodateSubset (cfg : TreeConfig)
    (subset : Option SubsetSpec) : TreeConfig :=
  match subset with
  | none => cfg
  | some s =>
      let cfg₁ :=
        if cfg.nullDepth < s.minimumNullDepth
        then { cfg with nullDepth := s.minimumNullDepth } else cfg
      let mbd := s.minimumBaseDepth cfg₁.pointsPerChunk
      if cfg₁.baseDepth < mbd then
        { cfg₁ with baseDepth := mbd, bumpDepth := some cfg₁.baseDepth }
      else cfg₁

/-- The error of the result accessors on an incomplete run. -/
inductive AccessErr where
  | incomplete
deriving DecidableEq, Repr

/-- `Inference::numPoints`: fail while `m_numPoints` is unset. -/
def Inference.numPoints (st : InfState) : Except AccessErr ℕ :=
  match st.numPoints with
  | none => Except.error AccessErr.incomplete
  | some n => Except.ok n

/-- `Inference::nativeBounds`: fail while `m_bounds` is unset. -/
def Inference.nativeBounds (st : InfState) : Except AccessErr Bounds :=
  match st.bounds with
  | none => Except.error AccessErr.incomplete
  | some b => Except.ok b

/-- `Inference::schema`: fail while `m_schema` is unset. -/
def Inference.schema (st : InfState) : Except AccessErr (List DimInfo) :=
  match st.schema with
  | none => Except.error AccessErr.incomplete
  | some s => Except.ok s

/-- `Inference::toJson`: serialize the file records together with the
three accessor results, in the order the source reads them (the optional
reprojection and delta fields never fail and are omitted here). -/
def Inference.toJson (files : List FileInfo) (st : InfState) :
    Except AccessErr (List FileInfo × List DimInfo × Bounds × ℕ) :=
  match Inference.schema st with
  | Except.error e => Except.error e
  | Except.ok sc =>
      match Inference.nativeBounds st with
      | Except.error e => Except.error e
      | Except.ok b =>
          match Inference.numPoints st with
          | Except.error e => Except.error e
          | Except.ok n => Except.ok (files, sc, b, n)

/-- Example record used to instantiate theorems on concrete input. -/
def exFileA : FileInfo :=
  ⟨"a", Status.inserted, 7, some ⟨⟨0, 0, 0⟩, ⟨1, 1, 1⟩⟩, "", none⟩

/-- Example record with bounds `[0,10]^3` and 100 points. -/
def exFileB : FileInfo :=
  ⟨"b", Status.inserted, 100, some ⟨⟨0, 0, 0⟩, ⟨10, 10, 10⟩⟩, "", none⟩

/-- Example record with bounds `[0,21]^3`, whose midpoint has integer part
10 on every axis. -/
def exFileC : FileInfo :=
  ⟨"c", Status.inserted, 1, some ⟨⟨0, 0, 0⟩, ⟨21, 21, 21⟩⟩, "", none⟩

/-- Example preview used to instantiate theorems on concrete input. -/
def exPreview : Preview :=
  ⟨42, ⟨⟨0, 0, 0⟩, ⟨1, 1, 1⟩⟩, "srs", none, [], "meta"⟩

/-- Example preview declaring 100 points, bounds `[0,10]^3` and one
dimension name. -/
def exPreviewB : Preview :=
  ⟨100, ⟨⟨0, 0, 0⟩, ⟨10, 10, 10⟩⟩, "", none, ["X"], "m"⟩

/-- Example entry for a file the executor accepts and previews. -/
def exEntryGood : FileEntry := ⟨FileInfo.fresh ("good"), true, some exPreviewB, none⟩

/-- Example entry for a file whose format the executor rejects. -/
def exEntryBad : FileEntry := ⟨FileInfo.fresh ("bad"), false, none, none⟩

/-- The record produced for `exEntryGood` by a trusted probe. -/
def exFileGood : FileInfo :=
  ⟨"good", Status.outstanding, 100, some ⟨⟨0, 0, 0⟩, ⟨10, 10, 10⟩⟩, "",
    some ("m")⟩

/-- The record produced for `exEntryBad`: omitted, no bounds. -/
def exFileBad : FileInfo := ⟨"bad", Status.omitted, 0, none, "", none⟩

/-- Example entry whose preview declares zero points. -/
def exEntryZero : FileEntry :=
  ⟨FileInfo.fresh ("z"), true,
    some ⟨0, ⟨⟨0, 0, 0⟩, ⟨1, 1, 1⟩⟩, "", none, ["X"], "m"⟩, none⟩

/-- The record produced for `exEntryZero` by a trusted probe. -/
def exFileZero : FileInfo :=
  ⟨"z", Status.outstanding, 0, some ⟨⟨0, 0, 0⟩, ⟨1, 1, 1⟩⟩, "", some ("m")⟩

/-! ### Helper lemmas -/

theorem Point.dot_comm (a b : Point) : a.dot b = b.dot a := by
  simp only [Point.dot]; ring

theorem contains_grow_right (a b : Bounds) : (a.grow b).contains b := by
  simp only [Bounds.grow, Bounds.contains, Point.min, Point.max]
  exact ⟨min_le_right _ _, min_le_right _ _, min_le_right _ _,
    le_max_right _ _, le_max_right _ _, le_max_right _ _⟩

theorem contains_grow_mono (a b c : Bounds) (h : a.contains c) :
    (a.grow b).contains c := by
  obtain ⟨h1, h2, h3, h4, h5, h6⟩ := h
  simp only [Bounds.grow, Bounds.contains, Point.min, Point.max]
  exact ⟨le_trans (min_le_left _ _) h1, le_trans (min_le_left _ _) h2,
    le_trans (min_le_left _ _) h3, le_trans h4 (le_max_left _ _),
    le_trans h5 (le_max_left _ _), le_trans h6 (le_max_left _ _)⟩

theorem contains_boundsFoldAux (files : List FileInfo) (acc c : Bounds)
    (h : acc.contains c) :
    (files.foldl
      (fun b f => match f.bounds with | some d => b.grow d | none => b)
      acc).contains c := by
  induction files generalizing acc with
  | nil => exact h
  | cons f rest ih =>
      simp only [List.foldl_cons]
      cases hb : f.bounds with
      | none => exact ih acc h
      | some d => exact ih _ (contains_grow_mono _ _ _ h)

theorem mem_contains_boundsFoldAux (files : List FileInfo) (acc : Bounds)
    (f : FileInfo) (b : Bounds) (hf : f ∈ files) (hb : f.bounds = some b) :
    (files.foldl
      (fun b' f' => match f'.bounds with | some d => b'.grow d | none => b')
      acc).contains b := by
  induction files generalizing acc with
  | nil => cases hf
  | cons g rest ih =>
      rcases List.mem_cons.mp hf with rfl | hmem
      · simp only [List.foldl_cons, hb]
        exact contains_boundsFoldAux rest _ b (contains_grow_right acc b)
      · cases hg : g.bounds <;> simp only [List.foldl_cons, hg] <;>
          exact ih _ hmem

theorem mem_contains_boundsFold (files : List FileInfo) (f : FileInfo)
    (b : Bounds) (hf : f ∈ files) (hb : f.bounds = some b) :
    (boundsFold files).contains b :=
  mem_contains_boundsFoldAux files expander f b hf hb

theorem pointsFoldAux (files : List FileInfo) (n : ℕ) :
    files.foldl (fun a f => a + f.numPoints) n = n + pointsFold files := by
  induction files generalizing n with
  | nil => simp [pointsFold]
  | cons f rest ih =>
      simp only [pointsFold, List.foldl_cons, Nat.zero_add]
      rw [ih (n + f.numPoints), ih f.numPoints]
      omega

theorem mem_le_pointsFold (files : List FileInfo) (f : FileInfo)
    (hf : f ∈ files) : f.numPoints ≤ pointsFold files := by
  induction files with
  | nil => cases hf
  | cons g rest ih =>
      have hg : pointsFold (g :: rest) = g.numPoints + pointsFold rest := by
        simp only [pointsFold, List.foldl_cons, Nat.zero_add]
        exact pointsFoldAux rest g.numPoints
      rcases List.mem_cons.mp hf with rfl | hmem
      · omega
      · have := ih hmem; omega

theorem pointsFold_eq_sum (files : List FileInfo) :
    pointsFold files = (files.map FileInfo.numPoints).sum := by
  induction files with
  | nil => rfl
  | cons f rest ih =>
      simp only [pointsFold, List.foldl_cons, List.map_cons, List.sum_cons,
        Nat.zero_add]
      rw [pointsFoldAux rest f.numPoints, ih]

theorem expander_grow_eq (b : Bounds)
    (h1 : b.min.x ≤ dblMax) (h2 : b.min.y ≤ dblMax) (h3 : b.min.z ≤ dblMax)
    (h4 : -dblMax ≤ b.max.x) (h5 : -dblMax ≤ b.max.y)
    (h6 : -dblMax ≤ b.max.z) :
    expander.grow b = b := by
  obtain ⟨⟨ax, ay, az⟩, ⟨bx, by', bz⟩⟩ := b
  simp only [expander, Bounds.grow, Point.min, Point.max] at *
  rw [min_eq_right h1, min_eq_right h2, min_eq_right h3,
    max_eq_right h4, max_eq_right h5, max_eq_right h6]

theorem qtrunc_intCast (m : ℤ) : qtrunc ((m : ℤ) : ℚ) = m := by
  unfold qtrunc
  split <;> simp

theorem tdiv_ten_bounds_of_nonneg {w : ℤ} (hw : 0 ≤ w) :
    w - 9 ≤ Int.tdiv w 10 * 10 ∧ Int.tdiv w 10 * 10 ≤ w := by
  rw [Int.tdiv_eq_ediv hw (by norm_num)]
  omega

theorem tdiv_ten_bounds_of_nonpos {w : ℤ} (hw : w ≤ 0) :
    w ≤ Int.tdiv w 10 * 10 ∧ Int.tdiv w 10 * 10 ≤ w + 9 := by
  have h : w = -(-w) := by ring
  rw [h, Int.neg_tdiv, Int.tdiv_eq_ediv (by omega) (by norm_num)]
  omega

theorem chooseOff_kept (d : ℚ)
    (hc : ((Int.tdiv (qtrunc d) 10 * 10 : ℤ) : ℚ) = d) :
    chooseOff d = d := by
  have hv : qtrunc d = Int.tdiv (qtrunc d) 10 * 10 := by
    conv_lhs => rw [← hc, qtrunc_intCast]
  unfold chooseOff
  rw [if_pos hc, hv, hc]

theorem chooseOff_mult_ten (d : ℚ) :
    ∃ k : ℤ, chooseOff d = ((10 * k : ℤ) : ℚ) := by
  by_cases hc : ((Int.tdiv (qtrunc d) 10 * 10 : ℤ) : ℚ) = d
  · refine ⟨Int.tdiv (qtrunc d) 10, ?_⟩
    rw [chooseOff_kept d hc]
    exact hc.symm.trans (by push_cast; ring)
  · refine ⟨Int.tdiv (qtrunc d + 10) 10, ?_⟩
    simp only [chooseOff, if_neg hc]
    push_cast; ring

theorem chooseOff_bounds (d : ℚ) :
    d ≤ chooseOff d ∧ chooseOff d < d + 20 ∧
      (0 ≤ d → chooseOff d ≤ d + 10) := by
  by_cases hc : ((Int.tdiv (qtrunc d) 10 * 10 : ℤ) : ℚ) = d
  · rw [chooseOff_kept d hc]
    refine ⟨le_refl d, by linarith, fun _ => by linarith⟩
  · have hrw : chooseOff d = ((Int.tdiv (qtrunc d + 10) 10 * 10 : ℤ) : ℚ) := by
      simp only [chooseOff, if_neg hc]
    rw [hrw]
    by_cases hd : 0 ≤ d
    · have hfl : qtrunc d = ⌊d⌋ := by unfold qtrunc; rw [if_pos hd]
      have h1 : ((qtrunc d : ℤ) : ℚ) ≤ d := by rw [hfl]; exact Int.floor_le d
      have h2 : d < (qtrunc d : ℚ) + 1 := by
        rw [hfl]; exact_mod_cast Int.lt_floor_add_one d
      have hv0 : 0 ≤ qtrunc d := by rw [hfl]; exact Int.floor_nonneg.mpr hd
      have hb := tdiv_ten_bounds_of_nonneg (w := qtrunc d + 10) (by omega)
      obtain ⟨hb1, hb2⟩ := hb
      have hb1q : ((qtrunc d : ℤ) : ℚ) + 1 ≤
          ((Int.tdiv (qtrunc d + 10) 10 * 10 : ℤ) : ℚ) := by exact_mod_cast by omega
      have hb2q : ((Int.tdiv (qtrunc d + 10) 10 * 10 : ℤ) : ℚ) ≤
          ((qtrunc d : ℤ) : ℚ) + 10 := by exact_mod_cast by omega
      exact ⟨by linarith, by linarith, fun _ => by linarith⟩
    · push_neg at hd
      have hcl : qtrunc d = ⌈d⌉ := by unfold qtrunc; rw [if_neg (not_le.mpr hd)]
      have h1 : d ≤ ((qtrunc d : ℤ) : ℚ) := by rw [hcl]; exact Int.le_ceil d
      have h2 : ((qtrunc d : ℤ) : ℚ) < d + 1 := by
        rw [hcl]; exact Int.ceil_lt_add_one d
      by_cases hw : 0 ≤ qtrunc d + 10
      · obtain ⟨hb1, hb2⟩ := tdiv_ten_bounds_of_nonneg hw
        have hb1q : ((qtrunc d : ℤ) : ℚ) + 1 ≤
            ((Int.tdiv (qtrunc d + 10) 10 * 10 : ℤ) : ℚ) := by
          exact_mod_cast by omega
        have hb2q : ((Int.tdiv (qtrunc d + 10) 10 * 10 : ℤ) : ℚ) ≤
            ((qtrunc d : ℤ) : ℚ) + 10 := by exact_mod_cast by omega
        exact ⟨by linarith, by linarith, fun h0 => absurd h0 (not_le.mpr hd)⟩
      · push_neg at hw
        obtain ⟨hb1, hb2⟩ := tdiv_ten_bounds_of_nonpos (w := qtrunc d + 10)
          (by omega)
        have hb1q : ((qtrunc d : ℤ) : ℚ) + 10 ≤
            ((Int.tdiv (qtrunc d + 10) 10 * 10 : ℤ) : ℚ) := by
          exact_mod_cast by omega
        have hb2q : ((Int.tdiv (qtrunc d + 10) 10 * 10 : ℤ) : ℚ) ≤
            ((qtrunc d : ℤ) : ℚ) + 19 := by exact_mod_cast by omega
        exact ⟨by linarith, by linarith, fun h0 => absurd h0 (not_le.mpr hd)⟩

theorem chooseOff_of_mult (d : ℚ) (h : ∃ k : ℤ, d = ((10 * k : ℤ) : ℚ)) :
    chooseOff d = d := by
  obtain ⟨k, rfl⟩ := h
  apply chooseOff_kept
  rw [qtrunc_intCast, Int.mul_comm 10 k, Int.mul_tdiv_cancel k (by norm_num),
    Int.mul_comm k 10]

theorem chooseOff_of_not_mult (d : ℚ)
    (h : ¬ ∃ k : ℤ, d = ((10 * k : ℤ) : ℚ)) :
    chooseOff d = ((Int.tdiv (qtrunc d + 10) 10 * 10 : ℤ) : ℚ) := by
  unfold chooseOff
  rw [if_neg]
  intro hc
  refine h ⟨Int.tdiv (qtrunc d) 10, hc.symm.trans ?_⟩
  push_cast; ring

theorem foldl_pmin_proj (g : Point → ℚ)
    (hg : ∀ a b : Point, g (Point.min a b) = Min.min (g a) (g b))
    (l : List (String × Point)) (s : Point) :
    g (l.foldl (fun a p => Point.min a p.2) s) =
      (l.map (fun p => g p.2)).foldl Min.min (g s) := by
  induction l generalizing s with
  | nil => rfl
  | cons p rest ih =>
      simp only [List.foldl_cons, List.map_cons]
      rw [ih, hg]

theorem foldl_min_mem (a : ℚ) (l : List ℚ) : l.foldl Min.min a ∈ a :: l := by
  induction l generalizing a with
  | nil => simp
  | cons b rest ih =>
      simp only [List.foldl_cons]
      rcases List.mem_cons.mp (ih (Min.min a b)) with h | h
      · rcases min_choice a b with hm | hm
        · exact List.mem_cons.mpr (Or.inl (h.trans hm))
        · exact List.mem_cons.mpr
            (Or.inr (List.mem_cons.mpr (Or.inl (h.trans hm))))
      · exact List.mem_cons.mpr (Or.inr (List.mem_cons.mpr (Or.inr h)))

theorem foldl_min_le_init (a : ℚ) (l : List ℚ) : l.foldl Min.min a ≤ a := by
  induction l generalizing a with
  | nil => simp
  | cons c rest ih =>
      simp only [List.foldl_cons]
      exact le_trans (ih (Min.min a c)) (min_le_left a c)

theorem foldl_min_le (a : ℚ) (l : List ℚ) (b : ℚ) (hb : b ∈ a :: l) :
    l.foldl Min.min a ≤ b := by
  induction l generalizing a with
  | nil =>
      rcases List.mem_cons.mp hb with rfl | h
      · simp
      · cases h
  | cons c rest ih =>
      simp only [List.foldl_cons]
      rcases List.mem_cons.mp hb with rfl | hb'
      · exact le_trans (foldl_min_le_init _ _) (min_le_left b c)
      · rcases List.mem_cons.mp hb' with rfl | hb''
        · exact le_trans (foldl_min_le_init _ _) (min_le_right a b)
        · exact ih (Min.min a c) (List.mem_cons.mpr (Or.inr hb''))

theorem mergeScales_delta (a : Bool) (l : List (String × Point)) (d : Delta)
    (h : ∀ p ∈ l, p.2.x ≠ 0 ∧ p.2.y ≠ 0 ∧ p.2.z ≠ 0) :
    Inference.mergeScales a (some d) l =
      Except.ok (some ⟨l.foldl (fun sc p => Point.min sc p.2) d.scale,
        d.offset⟩) := by
  induction l generalizing d with
  | nil => simp [Inference.mergeScales]
  | cons p rest ih =>
      have hp := h p (List.mem_cons_self p rest)
      simp only [Inference.mergeScales, Inference.mergeScale, List.foldl_cons]
      rw [if_neg (by tauto)]
      exact ih ⟨Point.min d.scale p.2, d.offset⟩
        (fun r hr => h r (List.mem_cons.mpr (Or.inr hr)))

/-! ### Claim C1 -/

/-- C1 (amended): after `Inference::aggregate` the global count is the sum
of the per-file counts over all records (omitted files contribute their
zero count), the global bounds is the grow-fold of every file's bounds
starting from the expander sentinel, and every file's count — in
particular every inserted file's — is at most the global count.  The
recorded (pre-rewrite) bounds of every inserted file are contained in the
global bounds; when no delta is active the records are unchanged, so this
containment holds of the final records as well.  With an active delta the
records' bounds are rewritten via deltify into quantized coordinates and
need not be contained in the (unquantized) global bounds. -/
theorem Inference.aggregate_invariants (files : List FileInfo)
    (delta : Option Delta) (f : FileInfo) (b : Bounds) (hf : f ∈ files)
    (hb : f.bounds = some b) (_hst : f.status = Status.inserted) :
    (Inference.aggregate files delta).numPoints =
      (files.map FileInfo.numPoints).sum ∧
    (Inference.aggregate files delta).bounds = boundsFold files ∧
    f.numPoints ≤ (Inference.aggregate files delta).numPoints ∧
    (Inference.aggregate files delta).bounds.contains b ∧
    (delta = none → (Inference.aggregate files delta).fileInfo = files) := by
  have hnum : (Inference.aggregate files delta).numPoints =
      pointsFold files := by
    unfold Inference.aggregate; cases delta <;> rfl
  have hbd : (Inference.aggregate files delta).bounds = boundsFold files := by
    unfold Inference.aggregate; cases delta <;> rfl
  refine ⟨by rw [hnum, pointsFold_eq_sum], hbd, ?_, ?_, ?_⟩
  · rw [hnum]; exact mem_le_pointsFold files f hf
  · rw [hbd]; exact mem_contains_boundsFold files f b hf hb
  · rintro rfl; rfl

/-- Witness for C1: the amended invariants evaluated on a single inserted
file with bounds `[0,1]^3` and 7 points, with no delta. -/
theorem Inference.aggregate_invariants_witness :
    exFileA ∈ [exFileA] ∧ exFileA.bounds = some ⟨⟨0, 0, 0⟩, ⟨1, 1, 1⟩⟩ ∧
    exFileA.status = Status.inserted ∧
    ((Inference.aggregate [exFileA] none).numPoints =
        ([exFileA].map FileInfo.numPoints).sum ∧
      (Inference.aggregate [exFileA] none).bounds = boundsFold [exFileA] ∧
      exFileA.numPoints ≤ (Inference.aggregate [exFileA] none).numPoints ∧
      (Inference.aggregate [exFileA] none).bounds.contains
        ⟨⟨0, 0, 0⟩, ⟨1, 1, 1⟩⟩ ∧
      (none = (none : Option Delta) →
        (Inference.aggregate [exFileA] none).fileInfo = [exFileA])) :=
  ⟨List.mem_singleton.mpr rfl, rfl, rfl,
    Inference.aggregate_invariants [exFileA] none exFileA _
      (List.mem_singleton.mpr rfl) rfl rfl⟩

/-- Counterexample for C1 as stated: with an active unit-scale delta over
a single inserted file with bounds `[0,10]^3`, aggregation chooses offset
`(10,10,10)` and rewrites the file's bounds to `[-10,0]^3`, which is not
contained in the global bounds `[0,10]^3`. -/
theorem Inference.aggregate_deltify_not_contained :
    exFileB.status = Status.inserted ∧
    (Inference.aggregate [exFileB] (some ⟨⟨1, 1, 1⟩, Point.zero⟩)).bounds =
      ⟨⟨0, 0, 0⟩, ⟨10, 10, 10⟩⟩ ∧
    (Inference.aggregate [exFileB]
        (some ⟨⟨1, 1, 1⟩, Point.zero⟩)).fileInfo.map FileInfo.bounds =
      [some ⟨⟨-10, -10, -10⟩, ⟨0, 0, 0⟩⟩] ∧
    ¬ (Inference.aggregate [exFileB]
        (some ⟨⟨1, 1, 1⟩, Point.zero⟩)).bounds.contains
      ⟨⟨-10, -10, -10⟩, ⟨0, 0, 0⟩⟩ := by
  have hB : boundsFold [exFileB] = ⟨⟨0, 0, 0⟩, ⟨10, 10, 10⟩⟩ := by
    simp only [boundsFold, List.foldl_cons, List.foldl_nil, exFileB]
    exact expander_grow_eq _ (by norm_num [dblMax]) (by norm_num [dblMax])
      (by norm_num [dblMax]) (by norm_num [dblMax]) (by norm_num [dblMax])
      (by norm_num [dblMax])
  have hq5 : qtrunc (5 : ℚ) = 5 := by
    rw [show (5 : ℚ) = ((5 : ℤ) : ℚ) by norm_num, qtrunc_intCast]
  have hco : chooseOff (5 : ℚ) = 10 := by
    rw [chooseOff_of_not_mult]
    · rw [hq5]
      norm_num [show Int.tdiv 15 10 = 1 from by decide]
    · rintro ⟨k, hk⟩
      have hk' : (5 : ℤ) = 10 * k := by exact_mod_cast hk
      omega
  have hmid : Bounds.mid ⟨⟨0, 0, 0⟩, ⟨10, 10, 10⟩⟩ = ⟨5, 5, 5⟩ := by
    norm_num [Bounds.mid]
  have hoff : Point.apply chooseOff (Bounds.mid ⟨⟨0, 0, 0⟩, ⟨10, 10, 10⟩⟩) =
      ⟨10, 10, 10⟩ := by
    rw [hmid]; simp [Point.apply, hco]
  have hdelt : Bounds.deltify ⟨⟨0, 0, 0⟩, ⟨10, 10, 10⟩⟩
      ⟨⟨1, 1, 1⟩, ⟨10, 10, 10⟩⟩ = ⟨⟨-10, -10, -10⟩, ⟨0, 0, 0⟩⟩ := by
    have hr1 : round ((-10 : ℚ)) = -10 := by
      rw [show (-10 : ℚ) = ((-10 : ℤ) : ℚ) by norm_num, round_intCast]
    norm_num [Bounds.deltify, Point.deltify, hr1, round_zero]
  have hagg : Inference.aggregate [exFileB] (some ⟨⟨1, 1, 1⟩, Point.zero⟩) =
      ⟨100, ⟨⟨0, 0, 0⟩, ⟨10, 10, 10⟩⟩, [],
        some ⟨⟨1, 1, 1⟩, ⟨10, 10, 10⟩⟩,
        [{ exFileB with bounds := some ⟨⟨-10, -10, -10⟩, ⟨0, 0, 0⟩⟩ }]⟩ := by
    simp only [Inference.aggregate, hB, hoff]
    simp only [pointsFold, List.foldl_cons, List.foldl_nil, srsStep,
      List.map_cons, List.map_nil, exFileB]
    simp only [hdelt]
    norm_num
  rw [hagg]
  refine ⟨rfl, rfl, by simp [exFileB], ?_⟩
  simp only [Bounds.contains]
  norm_num

/-! ### Claim C2 -/

/-- C2 (amended): with an active delta the aggregated offset is, on every
axis, `chooseOff` of the global bounds midpoint, where `chooseOff d`
keeps `d` exactly when `d` is an integer multiple of 10 and otherwise
takes `(trunc d + 10) / 10 * 10` with C++ truncating division.  The chosen
value is always an integer multiple of 10 with `mid ≤ offset < mid + 20`,
and within 10 above the midpoint when the midpoint is nonnegative; for
negative midpoints the gap can reach beyond 10. -/
theorem Inference.aggregate_offset (files : List FileInfo) (d₀ : Delta) :
    (Inference.aggregate files (some d₀)).delta =
      some ⟨d₀.scale, Point.apply chooseOff
        ((Inference.aggregate files (some d₀)).bounds).mid⟩ ∧
    (∀ d : ℚ,
      (∃ k : ℤ, chooseOff d = ((10 * k : ℤ) : ℚ)) ∧
      d ≤ chooseOff d ∧ chooseOff d < d + 20 ∧
      (0 ≤ d → chooseOff d ≤ d + 10) ∧
      ((∃ k : ℤ, d = ((10 * k : ℤ) : ℚ)) → chooseOff d = d) ∧
      (¬ (∃ k : ℤ, d = ((10 * k : ℤ) : ℚ)) →
        chooseOff d = ((Int.tdiv (qtrunc d + 10) 10 * 10 : ℤ) : ℚ))) := by
  constructor
  · unfold Inference.aggregate
    rfl
  · intro d
    exact ⟨chooseOff_mult_ten d, (chooseOff_bounds d).1,
      (chooseOff_bounds d).2.1, (chooseOff_bounds d).2.2,
      chooseOff_of_mult d, chooseOff_of_not_mult d⟩

/-- Witness for C2: the offset equation on a concrete aggregation, and
the nonnegative-midpoint bound discharged at `d = 5`. -/
theorem Inference.aggregate_offset_witness :
    (Inference.aggregate [exFileA] (some ⟨⟨1, 1, 1⟩, Point.zero⟩)).delta =
      some ⟨⟨1, 1, 1⟩, Point.apply chooseOff
        ((Inference.aggregate [exFileA]
          (some ⟨⟨1, 1, 1⟩, Point.zero⟩)).bounds).mid⟩ ∧
    (0 : ℚ) ≤ 5 ∧ chooseOff (5 : ℚ) ≤ 5 + 10 :=
  ⟨(Inference.aggregate_offset [exFileA] ⟨⟨1, 1, 1⟩, Point.zero⟩).1,
    by norm_num,
    ((Inference.aggregate_offset [exFileA]
      ⟨⟨1, 1, 1⟩, Point.zero⟩).2 5).2.2.2.1 (by norm_num)⟩

/-- Counterexample for C2 as stated: over bounds `[0,21]^3` the midpoint
is 10.5, whose integer part 10 is a multiple of 10, so the claim demands
offset 10; the code chooses 20. -/
theorem Inference.aggregate_offset_counterexample :
    qtrunc ((Inference.aggregate [exFileC]
        (some ⟨⟨1, 1, 1⟩, Point.zero⟩)).bounds.mid.x) = 10 * 1 ∧
    (Inference.aggregate [exFileC] (some ⟨⟨1, 1, 1⟩, Point.zero⟩)).delta =
      some ⟨⟨1, 1, 1⟩, ⟨20, 20, 20⟩⟩ ∧
    ((20 : ℚ) ≠ ((10 * 1 : ℤ) : ℚ)) := by
  have hB : boundsFold [exFileC] = ⟨⟨0, 0, 0⟩, ⟨21, 21, 21⟩⟩ := by
    simp only [boundsFold, List.foldl_cons, List.foldl_nil, exFileC]
    exact expander_grow_eq _ (by norm_num [dblMax]) (by norm_num [dblMax])
      (by norm_num [dblMax]) (by norm_num [dblMax]) (by norm_num [dblMax])
      (by norm_num [dblMax])
  have hq : qtrunc ((21 : ℚ) / 2) = 10 := by
    unfold qtrunc
    rw [if_pos (by norm_num)]
    rw [Int.floor_eq_iff]
    constructor <;> norm_num
  have hco : chooseOff ((21 : ℚ) / 2) = 20 := by
    rw [chooseOff_of_not_mult]
    · rw [hq]
      norm_num [show Int.tdiv 20 10 = 2 from by decide]
    · rintro ⟨k, hk⟩
      have hk2 : (21 : ℚ) = ((10 * k : ℤ) : ℚ) * 2 := by
        field_simp at hk
        exact_mod_cast hk
      have hk' : (21 : ℤ) = 10 * k * 2 := by exact_mod_cast hk2
      omega
  have hmid : Bounds.mid ⟨⟨0, 0, 0⟩, ⟨21, 21, 21⟩⟩ =
      ⟨(21 : ℚ) / 2, (21 : ℚ) / 2, (21 : ℚ) / 2⟩ := by
    norm_num [Bounds.mid]
  have hbagg : (Inference.aggregate [exFileC]
      (some ⟨⟨1, 1, 1⟩, Point.zero⟩)).bounds = ⟨⟨0, 0, 0⟩, ⟨21, 21, 21⟩⟩ := by
    unfold Inference.aggregate
    simp only [hB]
  have hdagg : (Inference.aggregate [exFileC]
      (some ⟨⟨1, 1, 1⟩, Point.zero⟩)).delta =
      some ⟨⟨1, 1, 1⟩, ⟨20, 20, 20⟩⟩ := by
    unfold Inference.aggregate
    simp only [hB, hmid, Point.apply, hco]
  refine ⟨?_, hdagg, by norm_num⟩
  rw [hbagg, hmid]
  simpa using hq

/-! ### Claim C3 -/

/-- C3: for a probed file, when trustHeaders holds and a preview was
obtained the record takes the preview's numPoints, bounds and metadata
directly, independently of any scan result (no scan runs); otherwise —
headers untrusted, or no preview — a successful full scan records the
streamed point count and bounds, where the scan accumulates the count
from zero and the bounds from the expander sentinel by growing over each
streamed point. -/
theorem Inference.add_spec (th allowDelta : Bool) (p : Preview)
    (run : Option (List Point)) (pts : List Point) (fi fi₁ : FileInfo)
    (st st₁ : SharedState)
    (hm : Inference.mergePreview allowDelta p fi st = Except.ok (fi₁, st₁)) :
    Inference.add true allowDelta (some p) run fi st =
      Except.ok ({ fi₁ with
        numPoints := p.numPoints,
        bounds := some p.bounds,
        metadata := some p.metadata }, st₁) ∧
    Inference.add false allowDelta (some p) (some pts) fi st =
      Except.ok ({ fi₁ with
        numPoints := pts.length,
        bounds := some (scanBounds pts) }, st₁) ∧
    Inference.add th allowDelta none (some pts) fi st =
      Except.ok ({ fi with
        numPoints := pts.length,
        bounds := some (scanBounds pts) }, st) ∧
    scanBounds [] = expander ∧
    (∀ q : Point, scanBounds (pts ++ [q]) = (scanBounds pts).growP q) := by
  refine ⟨?_, ?_, ?_, rfl, fun q => ?_⟩
  · simp only [Inference.add, hm]
    rfl
  · simp only [Inference.add, hm]
    rfl
  · simp only [Inference.add]
    rfl
  · simp [scanBounds, List.foldl_append]

/-- Witness for C3: the trusted-preview branch evaluated on a concrete
preview with no scale and no dimension names. -/
theorem Inference.add_spec_witness :
    Inference.mergePreview true exPreview (FileInfo.fresh ("a"))
        SharedState.init =
      Except.ok (⟨"a", Status.outstanding, 0, none, "srs", none⟩,
        SharedState.init) ∧
    Inference.add true true (some exPreview) none (FileInfo.fresh ("a"))
        SharedState.init =
      Except.ok (⟨"a", Status.outstanding, 42,
          some ⟨⟨0, 0, 0⟩, ⟨1, 1, 1⟩⟩, "srs", some ("meta")⟩,
        SharedState.init) :=
  ⟨rfl,
    (Inference.add_spec true true exPreview none [] (FileInfo.fresh ("a"))
      ⟨"a", Status.outstanding, 0, none, "srs", none⟩ SharedState.init
      SharedState.init rfl).1⟩

/-! ### Claim C4 -/

/-- C4: the locked scale merge.  A declared scale with a zero component
fails the run with InvalidScale; otherwise an existing global delta is
min-reduced componentwise with the file's scale, and an absent delta is
initialized from the file's scale (offset zero) when delta is allowed.
Consequently, over any nonempty set of files declaring nonzero scales, in
any probe order, the final global scale is on every axis the minimum of
the declared values (it is one of them and below all of them). -/
theorem Inference.mergeScale_spec (a : Bool) (path : String) (d : Delta)
    (s : Point) (q : String × Point) (rest : List (String × Point))
    (hnz : ∀ p ∈ (q :: rest : List (String × Point)),
      p.2.x ≠ 0 ∧ p.2.y ≠ 0 ∧ p.2.z ≠ 0)
    (hs : s.x ≠ 0 ∧ s.y ≠ 0 ∧ s.z ≠ 0) :
    (∀ (s' : Point) (d' : Option Delta),
      (s'.x = 0 ∨ s'.y = 0 ∨ s'.z = 0) →
      Inference.mergeScale a path d' s' =
        Except.error (InferErr.invalidScale path)) ∧
    Inference.mergeScale a path (some d) s =
      Except.ok (some ⟨Point.min d.scale s, d.offset⟩) ∧
    Inference.mergeScale true path none s =
      Except.ok (some ⟨s, Point.zero⟩) ∧
    (∃ dfin : Delta,
      Inference.mergeScales true none (q :: rest) =
        Except.ok (some dfin) ∧
      dfin.scale.x ∈ (q :: rest).map (fun p => p.2.x) ∧
      (∀ p ∈ (q :: rest : List _), dfin.scale.x ≤ p.2.x) ∧
      dfin.scale.y ∈ (q :: rest).map (fun p => p.2.y) ∧
      (∀ p ∈ (q :: rest : List _), dfin.scale.y ≤ p.2.y) ∧
      dfin.scale.z ∈ (q :: rest).map (fun p => p.2.z) ∧
      (∀ p ∈ (q :: rest : List _), dfin.scale.z ≤ p.2.z)) := by
  have hq := hnz q (List.mem_cons_self q rest)
  refine ⟨?_, ?_, ?_, ?_⟩
  · intro s' d' h0
    simp only [Inference.mergeScale, if_pos h0]
  · simp only [Inference.mergeScale]
    rw [if_neg (by tauto)]
  · simp only [Inference.mergeScale]
    rw [if_neg (by tauto), if_pos trivial]
  · refine ⟨⟨rest.foldl (fun sc p => Point.min sc p.2) q.2, Point.zero⟩,
      ?_, ?_, ?_, ?_, ?_, ?_, ?_⟩
    · simp only [Inference.mergeScales, Inference.mergeScale]
      rw [if_neg (by tauto)]
      exact mergeScales_delta true rest ⟨q.2, Point.zero⟩
        (fun p hp => hnz p (List.mem_cons.mpr (Or.inr hp)))
    · rw [foldl_pmin_proj Point.x (fun _ _ => rfl)]
      simpa using foldl_min_mem q.2.x (rest.map (fun p => p.2.x))
    · intro p hp
      rw [foldl_pmin_proj Point.x (fun _ _ => rfl)]
      rcases List.mem_cons.mp hp with rfl | hp'
      · exact foldl_min_le _ _ _ (List.mem_cons_self _ _)
      · exact foldl_min_le _ _ _
          (List.mem_cons.mpr (Or.inr (List.mem_map_of_mem _ hp')))
    · rw [foldl_pmin_proj Point.y (fun _ _ => rfl)]
      simpa using foldl_min_mem q.2.y (rest.map (fun p => p.2.y))
    · intro p hp
      rw [foldl_pmin_proj Point.y (fun _ _ => rfl)]
      rcases List.mem_cons.mp hp with rfl | hp'
      · exact foldl_min_le _ _ _ (List.mem_cons_self _ _)
      · exact foldl_min_le _ _ _
          (List.mem_cons.mpr (Or.inr (List.mem_map_of_mem _ hp')))
    · rw [foldl_pmin_proj Point.z (fun _ _ => rfl)]
      simpa using foldl_min_mem q.2.z (rest.map (fun p => p.2.z))
    · intro p hp
      rw [foldl_pmin_proj Point.z (fun _ _ => rfl)]
      rcases List.mem_cons.mp hp with rfl | hp'
      · exact foldl_min_le _ _ _ (List.mem_cons_self _ _)
      · exact foldl_min_le _ _ _
          (List.mem_cons.mpr (Or.inr (List.mem_map_of_mem _ hp')))

/-- Witness for C4: two files declaring scales `(1,2,3)` and `(2,1,4)`
yield a final global scale, and min-reduction on a concrete existing
delta. -/
theorem Inference.mergeScale_spec_witness :
    Inference.mergeScale true ("p") (some ⟨⟨2, 2, 2⟩, Point.zero⟩)
        ⟨1, 1, 1⟩ =
      Except.ok (some ⟨⟨1, 1, 1⟩, ⟨0, 0, 0⟩⟩) ∧
    (∃ dfin : Delta,
      Inference.mergeScales true none
          [("a", ⟨1, 2, 3⟩), ("b", ⟨2, 1, 4⟩)] =
        Except.ok (some dfin) ∧
      dfin.scale.x ∈ ([("a", (⟨1, 2, 3⟩ : Point)),
        ("b", ⟨2, 1, 4⟩)].map (fun p => p.2.x)) ∧
      (∀ p ∈ ([("a", (⟨1, 2, 3⟩ : Point)), ("b", ⟨2, 1, 4⟩)] : List _),
        dfin.scale.x ≤ p.2.x) ∧
      dfin.scale.y ∈ ([("a", (⟨1, 2, 3⟩ : Point)),
        ("b", ⟨2, 1, 4⟩)].map (fun p => p.2.y)) ∧
      (∀ p ∈ ([("a", (⟨1, 2, 3⟩ : Point)), ("b", ⟨2, 1, 4⟩)] : List _),
        dfin.scale.y ≤ p.2.y) ∧
      dfin.scale.z ∈ ([("a", (⟨1, 2, 3⟩ : Point)),
        ("b", ⟨2, 1, 4⟩)].map (fun p => p.2.z)) ∧
      (∀ p ∈ ([("a", (⟨1, 2, 3⟩ : Point)), ("b", ⟨2, 1, 4⟩)] : List _),
        dfin.scale.z ≤ p.2.z)) := by
  have h := Inference.mergeScale_spec true ("p") ⟨⟨2, 2, 2⟩, Point.zero⟩
    ⟨1, 1, 1⟩ ("a", ⟨1, 2, 3⟩) [("b", ⟨2, 1, 4⟩)]
    (by intro p hp; fin_cases hp <;> norm_num)
    (by norm_num)
  refine ⟨h.2.1.trans ?_, h.2.2.2⟩
  norm_num [Point.min, Point.zero]

/-! ### Claim C6 -/

/-- C6: the appended PointId dimension is unsigned with size 4 bytes
exactly when the largest per-file point count is at most `2^32 - 1` and
size 8 otherwise, and the appended OriginId dimension is unsigned with
size 4 bytes exactly when the number of file records is at most
`2^32 - 1` and size 8 otherwise. -/
theorem ConfigParser.synthetic_dim_sizes (dims : List DimInfo)
    (files : List FileInfo) :
    appendSyntheticDims dims files =
      dims ++ [⟨"PointId", DimKind.unsigned, pointIdSize files⟩,
        ⟨"OriginId", DimKind.unsigned, originSize files⟩] ∧
    (pointIdSize files = 4 ↔ maxNumPoints files ≤ 2 ^ 32 - 1) ∧
    (pointIdSize files = 8 ↔ ¬ maxNumPoints files ≤ 2 ^ 32 - 1) ∧
    (originSize files = 4 ↔ files.length ≤ 2 ^ 32 - 1) ∧
    (originSize files = 8 ↔ ¬ files.length ≤ 2 ^ 32 - 1) := by
  refine ⟨rfl, ?_, ?_, ?_, ?_⟩ <;>
    simp only [pointIdSize, originSize] <;> split <;> simp_all

/-! ### Claim C9 -/

/-- C9: with a subset configured, nullDepth is raised to the subset's
minimum null depth when below it and kept otherwise; baseDepth is raised
to the subset's minimum base depth (derived from pointsPerChunk) when
below it, preserving the original value in bumpDepth; otherwise baseDepth
and the bumpDepth key are left unchanged; without a subset the
configuration is untouched. -/
theorem ConfigParser.maybeAccommodateSubset_spec (cfg : TreeConfig)
    (s : SubsetSpec) :
    ((cfg.nullDepth < s.minimumNullDepth →
        (ConfigParser.maybeAccommodateSubset cfg (some s)).nullDepth =
          s.minimumNullDepth) ∧
      (¬ cfg.nullDepth < s.minimumNullDepth →
        (ConfigParser.maybeAccommodateSubset cfg (some s)).nullDepth =
          cfg.nullDepth) ∧
      (cfg.baseDepth < s.minimumBaseDepth cfg.pointsPerChunk →
        (ConfigParser.maybeAccommodateSubset cfg (some s)).baseDepth =
          s.minimumBaseDepth cfg.pointsPerChunk ∧
        (ConfigParser.maybeAccommodateSubset cfg (some s)).bumpDepth =
          some cfg.baseDepth) ∧
      (¬ cfg.baseDepth < s.minimumBaseDepth cfg.pointsPerChunk →
        (ConfigParser.maybeAccommodateSubset cfg (some s)).baseDepth =
          cfg.baseDepth ∧
        (ConfigParser.maybeAccommodateSubset cfg (some s)).bumpDepth =
          cfg.bumpDepth) ∧
      (ConfigParser.maybeAccommodateSubset cfg (some s)).pointsPerChunk =
        cfg.pointsPerChunk) ∧
    ConfigParser.maybeAccommodateSubset cfg none = cfg := by
  unfold ConfigParser.maybeAccommodateSubset
  by_cases h1 : cfg.nullDepth < s.minimumNullDepth <;>
    by_cases h2 : cfg.baseDepth < s.minimumBaseDepth cfg.pointsPerChunk <;>
    simp [h1, h2]

/-- Witness for C9: a subset `{id:1, of:4}`-style minimum of 1 bumps a
configured nullDepth of 0, and a minimum base depth of 12 bumps a
configured baseDepth of 10 while recording 10 in bumpDepth. -/
theorem ConfigParser.maybeAccommodateSubset_spec_witness :
    (ConfigParser.maybeAccommodateSubset ⟨0, 10, none, 262144⟩
        (some ⟨1, fun _ => 12⟩)).nullDepth = 1 ∧
    (ConfigParser.maybeAccommodateSubset ⟨0, 10, none, 262144⟩
        (some ⟨1, fun _ => 12⟩)).baseDepth = 12 ∧
    (ConfigParser.maybeAccommodateSubset ⟨0, 10, none, 262144⟩
        (some ⟨1, fun _ => 12⟩)).bumpDepth = some 10 := by
  have h := ConfigParser.maybeAccommodateSubset_spec ⟨0, 10, none, 262144⟩
    ⟨1, fun _ => 12⟩
  exact ⟨h.1.1 (by norm_num), (h.1.2.2.1 (by norm_num)).1,
    (h.1.2.2.1 (by norm_num)).2⟩

/-! ### Claim C7 -/

/-- C7 (amended): for an input path with extension entwine-inference the
resolver replaces the input with the serialized fileInfo and adopts the
serialized schema, bounds, numPoints (as numPointsHint), and — when the
file carries a delta — scale and offset, each only when the user did not
already supply that field; a user-supplied value for those fields is
kept.  The reprojection however is adopted whenever the inference file
has one, overwriting any user-supplied reprojection. -/
theorem ConfigParser.normalizeInput_adoption
    (resolve : String → List String) (isDir : String → Bool)
    (basename : String → String) (fetch : String → InferenceJson)
    (cfg : Config) (s : String) (hin : cfg.input = InputVal.strV s)
    (hext : getExtension s = "entwine-inference") :
    (ConfigParser.normalizeInput resolve isDir basename fetch cfg).input =
      InputVal.fileInfoV (fetch s).fileInfo ∧
    (∀ x, cfg.schema = some x →
      (ConfigParser.normalizeInput resolve isDir basename fetch cfg).schema =
        some x) ∧
    (cfg.schema = none →
      (ConfigParser.normalizeInput resolve isDir basename fetch cfg).schema =
        some (fetch s).schema) ∧
    (∀ x, cfg.bounds = some x →
      (ConfigParser.normalizeInput resolve isDir basename fetch cfg).bounds =
        some x) ∧
    (cfg.bounds = none →
      (ConfigParser.normalizeInput resolve isDir basename fetch cfg).bounds =
        some (fetch s).bounds) ∧
    (∀ x, cfg.numPointsHint = some x →
      (ConfigParser.normalizeInput resolve isDir basename fetch
        cfg).numPointsHint = some x) ∧
    (cfg.numPointsHint = none →
      (ConfigParser.normalizeInput resolve isDir basename fetch
        cfg).numPointsHint = some (fetch s).numPoints) ∧
    (∀ rp, (fetch s).reprojection = some rp →
      (ConfigParser.normalizeInput resolve isDir basename fetch
        cfg).reprojection = some rp) ∧
    ((fetch s).reprojection = none →
      (ConfigParser.normalizeInput resolve isDir basename fetch
        cfg).reprojection = cfg.reprojection) ∧
    (∀ x, cfg.scale = some x →
      (ConfigParser.normalizeInput resolve isDir basename fetch cfg).scale =
        some x) ∧
    (((fetch s).scale.isSome ∨ (fetch s).offset.isSome) → cfg.scale = none →
      (ConfigParser.normalizeInput resolve isDir basename fetch cfg).scale =
        (fetch s).scale) ∧
    (∀ x, cfg.offset = some x →
      (ConfigParser.normalizeInput resolve isDir basename fetch cfg).offset =
        some x) ∧
    (((fetch s).scale.isSome ∨ (fetch s).offset.isSome) → cfg.offset = none →
      (ConfigParser.normalizeInput resolve isDir basename fetch cfg).offset =
        (fetch s).offset) ∧
    (¬ ((fetch s).scale.isSome ∨ (fetch s).offset.isSome) →
      (ConfigParser.normalizeInput resolve isDir basename fetch cfg).scale =
        cfg.scale ∧
      (ConfigParser.normalizeInput resolve isDir basename fetch cfg).offset =
        cfg.offset) := by
  have hr : ConfigParser.normalizeInput resolve isDir basename fetch cfg =
      ConfigParser.adoptInference (fetch s) cfg := by
    simp only [ConfigParser.normalizeInput, hin, hext, if_true]
  rw [hr]
  simp only [ConfigParser.adoptInference]
  refine ⟨trivial, ?_, ?_, ?_, ?_, ?_, ?_, ?_, ?_, ?_, ?_, ?_, ?_, ?_⟩
  · intro x hx; simp [hx]
  · intro hx; simp [hx]
  · intro x hx; simp [hx]
  · intro hx; simp [hx]
  · intro x hx; simp [hx]
  · intro hx; simp [hx]
  · intro rp hrp; simp [hrp]
  · intro hrp; simp [hrp]
  · intro x hx; simp [hx, Option.isNone]
  · intro hd hx; simp [hd, hx]
  · intro x hx; simp [hx, Option.isNone]
  · intro hd hx; simp [hd, hx]
  · intro hd; simp [hd]

/-- Witness for C7: on a concrete inference file with 5 points and a
configuration that supplies bounds but no numPointsHint, the hint is
adopted and the user's bounds are kept. -/
theorem ConfigParser.normalizeInput_adoption_witness :
    (ConfigParser.normalizeInput (fun _ => []) (fun _ => false) (fun t => t)
        (fun _ => ⟨[], [], ⟨Point.zero, Point.zero⟩, 5, none, none, none⟩)
        ⟨InputVal.strV ("x.entwine-inference"), none,
          some ⟨⟨0, 0, 0⟩, ⟨1, 1, 1⟩⟩, none, none, none,
          none⟩).numPointsHint = some 5 ∧
    (ConfigParser.normalizeInput (fun _ => []) (fun _ => false) (fun t => t)
        (fun _ => ⟨[], [], ⟨Point.zero, Point.zero⟩, 5, none, none, none⟩)
        ⟨InputVal.strV ("x.entwine-inference"), none,
          some ⟨⟨0, 0, 0⟩, ⟨1, 1, 1⟩⟩, none, none, none,
          none⟩).bounds = some ⟨⟨0, 0, 0⟩, ⟨1, 1, 1⟩⟩ := by
  have h := ConfigParser.normalizeInput_adoption (fun _ => [])
    (fun _ => false) (fun t => t)
    (fun _ => ⟨[], [], ⟨Point.zero, Point.zero⟩, 5, none, none, none⟩)
    ⟨InputVal.strV ("x.entwine-inference"), none,
      some ⟨⟨0, 0, 0⟩, ⟨1, 1, 1⟩⟩, none, none, none, none⟩
    ("x.entwine-inference") rfl (by decide)
  exact ⟨h.2.2.2.2.2.2.1 rfl, h.2.2.2.1 ⟨⟨0, 0, 0⟩, ⟨1, 1, 1⟩⟩ rfl⟩

/-- Counterexample for C7 as stated: the user supplied a reprojection,
yet adopting an inference file that carries one replaces the user's
value. -/
theorem ConfigParser.normalizeInput_reprojection_overwritten :
    (ConfigParser.normalizeInput (fun _ => []) (fun _ => false) (fun t => t)
        (fun _ => ⟨[], [], ⟨Point.zero, Point.zero⟩, 0, some ("inferred"),
          none, none⟩)
        ⟨InputVal.strV ("x.entwine-inference"), none, none, none,
          some ("user"), none, none⟩).reprojection = some ("inferred") := by
  decide

/-! ### Claim C8 -/

theorem cesiumLoop_ok (transform : Bounds → Transformation → Bounds)
    (t : Transformation) (files : List FileInfo) (acc : Bounds)
    (h : ∀ f ∈ files, f.bounds ≠ none) :
    Inference.cesiumLoop transform t files acc =
      Except.ok
        (files.map (fun f =>
          { f with bounds := f.bounds.map (fun b => transform b t) }),
         files.foldl (fun a f => match f.bounds with
           | some b => a.grow (transform b t)
           | none => a) acc) := by
  induction files generalizing acc with
  | nil => rfl
  | cons f rest ih =>
      have hf := h f (List.mem_cons_self f rest)
      cases hb : f.bounds with
      | none => exact absurd hb hf
      | some b =>
          simp only [Inference.cesiumLoop, hb, List.map_cons, List.foldl_cons]
          rw [ih (acc.grow (transform b t))
            (fun g hg => h g (List.mem_cons.mpr (Or.inr hg)))]
          simp

theorem cesiumLoop_missing (transform : Bounds → Transformation → Bounds)
    (t : Transformation) (files : List FileInfo) (acc : Bounds)
    (h : ∃ f ∈ files, f.bounds = none) :
    Inference.cesiumLoop transform t files acc =
      Except.error InferErr.missingBounds := by
  induction files generalizing acc with
  | nil => obtain ⟨f, hf, _⟩ := h; cases hf
  | cons g rest ih =>
      cases hb : g.bounds with
      | none => simp only [Inference.cesiumLoop, hb]
      | some b =>
          obtain ⟨f, hf, hfb⟩ := h
          rcases List.mem_cons.mp hf with rfl | hmem
          · rw [hb] at hfb; cases hfb
          · simp only [Inference.cesiumLoop, hb]
            rw [ih (acc.grow (transform b t)) ⟨f, hmem, hfb⟩]

/-- C8: the computed cesium transformation equals M = T·R exactly as the
specification words it: R stacks east = north x up, north the normalized
tangent-plane projection of the north pole, up the normalized bounds
midpoint, and T translates the midpoint of the R-transformed bounds to
the origin.  Afterwards the cesium stage re-transforms every file's
bounds through the executor's transform and recomputes the global bounds
by folding grow from the expander sentinel, failing with the
missing-bounds error when any file lacks bounds. -/
theorem Inference.calcTransformation_spec (sq : ℚ → ℚ)
    (transform : Bounds → Transformation → Bounds) (bounds : Bounds)
    (t : Transformation) (files : List FileInfo) :
    Inference.calcTransformation sq transform bounds =
      specTransformation sq transform bounds ∧
    ((∀ f ∈ files, f.bounds ≠ none) →
      Inference.cesiumLoop transform t files expander =
        Except.ok
          (files.map (fun f =>
            { f with bounds := f.bounds.map (fun b => transform b t) }),
           files.foldl (fun a f => match f.bounds with
             | some b => a.grow (transform b t)
             | none => a) expander)) ∧
    ((∃ f ∈ files, f.bounds = none) →
      Inference.cesiumLoop transform t files expander =
        Except.error InferErr.missingBounds) := by
  refine ⟨?_, fun h => cesiumLoop_ok transform t files expander h,
    fun h => cesiumLoop_missing transform t files expander h⟩
  simp only [Inference.calcTransformation, specTransformation]
  rw [Point.dot_comm]

/-- Witness for C8: the refinement and the successful loop evaluated with
the identity square root and identity executor transform on bounds whose
midpoint is `(1,0,0)`. -/
theorem Inference.calcTransformation_spec_witness :
    Inference.calcTransformation (fun q => q) (fun b _ => b)
        ⟨⟨1, -1, -1⟩, ⟨1, 1, 1⟩⟩ =
      specTransformation (fun q => q) (fun b _ => b)
        ⟨⟨1, -1, -1⟩, ⟨1, 1, 1⟩⟩ ∧
    Inference.cesiumLoop (fun b _ => b) [] [exFileA] expander =
      Except.ok ([exFileA],
        expander.grow ⟨⟨0, 0, 0⟩, ⟨1, 1, 1⟩⟩) := by
  have h := Inference.calcTransformation_spec (fun q => q) (fun b _ => b)
    ⟨⟨1, -1, -1⟩, ⟨1, 1, 1⟩⟩ [] [exFileA]
  refine ⟨h.1, (h.2.1 (by simp [exFileA])).trans ?_⟩
  simp [exFileA]

/-! ### Claim C5 -/

/-- C5 (amended): go fails with DoubleRun on a second invocation, with
NoValidInputs when no file was accepted, with ZeroPoints when the
aggregated count is zero, with EmptySchema when the count is nonzero but
the schema stride is zero, and with NoBounds when count and stride are
nonzero but the aggregated bounds still equal the expander sentinel (the
checks run in that order).  When none of these hold go completes — unless
Cesium output was requested and some file record lacks bounds, in which
case go fails with the missing-bounds error instead of completing; a
probe failure (invalid scale) also aborts the run before these checks. -/
theorem Inference.go_failure_modes (th ad ces : Bool)
    (registry : String → Option (DimKind × ℕ)) (sq : ℚ → ℚ)
    (transform : Bounds → Transformation → Bounds)
    (entries : List FileEntry) (files : List FileInfo) (st : SharedState)
    (valid : Bool)
    (hprobe : Inference.probeAll th ad entries SharedState.init =
      Except.ok (files, st, valid)) :
    (Inference.go th ad ces registry sq transform entries true =
      Except.error InferErr.doubleRun) ∧
    (valid = false →
      Inference.go th ad ces registry sq transform entries false =
        Except.error InferErr.noValidInputs) ∧
    (valid = true →
      (let agg := Inference.aggregate files st.delta
       let schema := Inference.makeSchema registry st.dimVec agg.delta
         agg.bounds
       (agg.numPoints = 0 →
         Inference.go th ad ces registry sq transform entries false =
           Except.error InferErr.zeroPoints) ∧
       (agg.numPoints ≠ 0 → stride schema = 0 →
         Inference.go th ad ces registry sq transform entries false =
           Except.error InferErr.emptySchema) ∧
       (agg.numPoints ≠ 0 → stride schema ≠ 0 → agg.bounds = expander →
         Inference.go th ad ces registry sq transform entries false =
           Except.error InferErr.noBounds) ∧
       (agg.numPoints ≠ 0 → stride schema ≠ 0 → agg.bounds ≠ expander →
         ces = false →
         Inference.go th ad ces registry sq transform entries false =
           Except.ok ⟨agg.fileInfo, agg.numPoints, agg.bounds, schema,
             agg.delta, agg.srsList, none⟩) ∧
       (agg.numPoints ≠ 0 → stride schema ≠ 0 → agg.bounds ≠ expander →
         ces = true → (∀ f ∈ agg.fileInfo, f.bounds ≠ none) →
         Inference.go th ad ces registry sq transform entries false =
           Except.ok ⟨agg.fileInfo.map (fun f =>
               { f with bounds := f.bounds.map (fun b => transform b
                 (Inference.calcTransformation sq transform agg.bounds)) }),
             agg.numPoints,
             agg.fileInfo.foldl (fun a f => match f.bounds with
               | some b => a.grow (transform b
                   (Inference.calcTransformation sq transform agg.bounds))
               | none => a) expander,
             schema, agg.delta, agg.srsList,
             some (Inference.calcTransformation sq transform agg.bounds)⟩) ∧
       (agg.numPoints ≠ 0 → stride schema ≠ 0 → agg.bounds ≠ expander →
         ces = true → (∃ f ∈ agg.fileInfo, f.bounds = none) →
         Inference.go th ad ces registry sq transform entries false =
           Except.error InferErr.missingBounds))) := by
  refine ⟨?_, ?_, ?_⟩
  · simp [Inference.go, Inference.goState]
  · intro hv; subst hv
    simp [Inference.go, Inference.goState, hprobe]
  · intro hv; subst hv
    refine ⟨?_, ?_, ?_, ?_, ?_, ?_⟩
    · intro h0
      simp [Inference.go, Inference.goState, hprobe, h0]
    · intro h0 h1
      simp [Inference.go, Inference.goState, hprobe, h0, h1]
    · intro h0 h1 h2
      rw [h2] at h1
      simp [Inference.go, Inference.goState, hprobe, h0, h1, h2]
    · intro h0 h1 h2 hc; subst hc
      simp [Inference.go, Inference.goState, hprobe, h0, h1, h2]
    · intro h0 h1 h2 hc hall; subst hc
      simp only [Inference.go, Inference.goState, hprobe, Bool.not_true]
      rw [if_neg (by simp), if_neg h0, if_neg h1, if_neg h2, if_pos trivial,
        cesiumLoop_ok _ _ _ _ hall]
      simp
    · intro h0 h1 h2 hc hmiss; subst hc
      simp only [Inference.go, Inference.goState, hprobe, Bool.not_true]
      rw [if_neg (by simp), if_neg h0, if_neg h1, if_neg h2, if_pos trivial,
        cesiumLoop_missing _ _ _ _ hmiss]
      simp

/-- Witness for C5: one rejected file yields the NoValidInputs failure. -/
theorem Inference.go_failure_modes_witness :
    Inference.probeAll true true [exEntryBad] SharedState.init =
      Except.ok ([exFileBad], SharedState.init, false) ∧
    Inference.go true true false (fun _ => none) (fun q => q)
        (fun b _ => b) [exEntryBad] false =
      Except.error InferErr.noValidInputs :=
  ⟨rfl, (Inference.go_failure_modes true true false (fun _ => none)
    (fun q => q) (fun b _ => b) [exEntryBad] [exFileBad] SharedState.init
    false rfl).2.1 rfl⟩

/-- Counterexample for C5 as stated: with one accepted file (100 points,
bounds `[0,10]^3`, stride 8) and one rejected file, none of the five
listed failure conditions holds, yet a Cesium-mode run aborts with the
missing-bounds error instead of completing, because the omitted record
has no bounds. -/
theorem Inference.go_cesium_counterexample :
    Inference.probeAll true true [exEntryGood, exEntryBad]
        SharedState.init =
      Except.ok ([exFileGood, exFileBad], ⟨none, ["X"], ["X"]⟩, true) ∧
    (Inference.aggregate [exFileGood, exFileBad] none).numPoints = 100 ∧
    (Inference.aggregate [exFileGood, exFileBad] none).bounds =
      ⟨⟨0, 0, 0⟩, ⟨10, 10, 10⟩⟩ ∧
    (⟨⟨0, 0, 0⟩, ⟨10, 10, 10⟩⟩ : Bounds) ≠ expander ∧
    stride (Inference.makeSchema (fun _ => none) ["X"] none
      ⟨⟨0, 0, 0⟩, ⟨10, 10, 10⟩⟩) = 8 ∧
    Inference.go true true true (fun _ => none) (fun q => q) (fun b _ => b)
        [exEntryGood, exEntryBad] false =
      Except.error InferErr.missingBounds := by
  have hprobe : Inference.probeAll true true [exEntryGood, exEntryBad]
      SharedState.init =
      Except.ok ([exFileGood, exFileBad], ⟨none, ["X"], ["X"]⟩, true) := rfl
  have hB : boundsFold [exFileGood, exFileBad] =
      ⟨⟨0, 0, 0⟩, ⟨10, 10, 10⟩⟩ := by
    simp only [boundsFold, List.foldl_cons, List.foldl_nil, exFileGood,
      exFileBad]
    exact expander_grow_eq _ (by norm_num [dblMax]) (by norm_num [dblMax])
      (by norm_num [dblMax]) (by norm_num [dblMax]) (by norm_num [dblMax])
      (by norm_num [dblMax])
  have hne : (⟨⟨0, 0, 0⟩, ⟨10, 10, 10⟩⟩ : Bounds) ≠ expander := by
    simp only [expander, dblMax, ne_eq, Bounds.mk.injEq, Point.mk.injEq]
    norm_num
  have hnum : (Inference.aggregate [exFileGood, exFileBad] none).numPoints
      = 100 := rfl
  have hbounds : (Inference.aggregate [exFileGood, exFileBad] none).bounds
      = ⟨⟨0, 0, 0⟩, ⟨10, 10, 10⟩⟩ := by
    unfold Inference.aggregate
    simpa using hB
  have hagg : Inference.aggregate [exFileGood, exFileBad] none =
      ⟨100, ⟨⟨0, 0, 0⟩, ⟨10, 10, 10⟩⟩, [], none,
        [exFileGood, exFileBad]⟩ := by
    unfold Inference.aggregate
    rw [hB]
    rfl
  have hstr : stride (Inference.makeSchema (fun _ => none) ["X"] none
      ⟨⟨0, 0, 0⟩, ⟨10, 10, 10⟩⟩) = 8 := rfl
  have hmiss : ∃ f ∈ ([exFileGood, exFileBad] : List FileInfo),
      f.bounds = none := ⟨exFileBad, by simp, rfl⟩
  refine ⟨hprobe, hnum, hbounds, hne, rfl, ?_⟩
  simp only [Inference.go, Inference.goState, hprobe, Bool.not_true, hagg]
  rw [cesiumLoop_missing _ _ _ _ hmiss]
  simp [hstr, hne]

/-! ### Claim C10 -/

/-- C10 (amended): each accessor fails with the incomplete error exactly
while its member is unset and returns the stored value otherwise, and
toJson fails exactly when one of schema, bounds or numPoints is unset —
in particular on a fresh instance whose go never ran.  The members are
however already set during aggregation and schema synthesis, before go's
completion checks, so a run aborted at the ZeroPoints check leaves all
three set and toJson succeeds although go did not run to completion. -/
theorem Inference.accessors_spec (st : InfState) (files : List FileInfo) :
    (st.numPoints = none ↔
      Inference.numPoints st = Except.error AccessErr.incomplete) ∧
    (∀ n, st.numPoints = some n → Inference.numPoints st = Except.ok n) ∧
    (st.bounds = none ↔
      Inference.nativeBounds st = Except.error AccessErr.incomplete) ∧
    (∀ b, st.bounds = some b → Inference.nativeBounds st = Except.ok b) ∧
    (st.schema = none ↔
      Inference.schema st = Except.error AccessErr.incomplete) ∧
    (∀ sc, st.schema = some sc → Inference.schema st = Except.ok sc) ∧
    ((st.numPoints = none ∨ st.bounds = none ∨ st.schema = none) ↔
      Inference.toJson files st = Except.error AccessErr.incomplete) ∧
    Inference.toJson files InfState.initial =
      Except.error AccessErr.incomplete := by
  obtain ⟨np, bd, sc, dn⟩ := st
  refine ⟨?_, ?_, ?_, ?_, ?_, ?_, ?_, rfl⟩
  · cases np <;> simp [Inference.numPoints]
  · intro n h
    cases np with
    | none => cases h
    | some m => cases h; rfl
  · cases bd <;> simp [Inference.nativeBounds]
  · intro b h
    cases bd with
    | none => cases h
    | some m => cases h; rfl
  · cases sc <;> simp [Inference.schema]
  · intro s h
    cases sc with
    | none => cases h
    | some m => cases h; rfl
  · cases np <;> cases bd <;> cases sc <;>
      simp [Inference.toJson, Inference.numPoints, Inference.nativeBounds,
        Inference.schema]

/-- Witness for C10: an accessor returning a stored value, and toJson
failing on a fresh instance. -/
theorem Inference.accessors_spec_witness :
    Inference.numPoints ⟨some 3, none, none, false⟩ = Except.ok 3 ∧
    Inference.toJson [] InfState.initial =
      Except.error AccessErr.incomplete :=
  ⟨(Inference.accessors_spec ⟨some 3, none, none, false⟩ []).2.1 3 rfl,
    (Inference.accessors_spec InfState.initial
      []).2.2.2.2.2.2.2⟩

/-- Counterexample for C10 as stated: a run over one accepted file whose
preview declares zero points aborts with ZeroPoints — go does not run to
completion (done stays false) — yet aggregation and schema synthesis
already set all three members, so toJson succeeds on this instance. -/
theorem Inference.toJson_after_aborted_go :
    Inference.goState true true false (fun _ => none) (fun q => q)
        (fun b _ => b) [exEntryZero] false =
      (⟨some 0, some ⟨⟨0, 0, 0⟩, ⟨1, 1, 1⟩⟩,
          some [⟨"X", DimKind.floating, 8⟩], false⟩,
        Except.error InferErr.zeroPoints) ∧
    Inference.toJson [exFileZero]
        ⟨some 0, some ⟨⟨0, 0, 0⟩, ⟨1, 1, 1⟩⟩,
          some [⟨"X", DimKind.floating, 8⟩], false⟩ =
      Except.ok ([exFileZero], [⟨"X", DimKind.floating, 8⟩],
        ⟨⟨0, 0, 0⟩, ⟨1, 1, 1⟩⟩, 0) := by
  have hprobe : Inference.probeAll true true [exEntryZero]
      SharedState.init =
      Except.ok ([exFileZero], ⟨none, ["X"], ["X"]⟩, true) := rfl
  have hB : boundsFold [exFileZero] = ⟨⟨0, 0, 0⟩, ⟨1, 1, 1⟩⟩ := by
    simp only [boundsFold, List.foldl_cons, List.foldl_nil, exFileZero]
    exact expander_grow_eq _ (by norm_num [dblMax]) (by norm_num [dblMax])
      (by norm_num [dblMax]) (by norm_num [dblMax]) (by norm_num [dblMax])
      (by norm_num [dblMax])
  have hagg : Inference.aggregate [exFileZero] none =
      ⟨0, ⟨⟨0, 0, 0⟩, ⟨1, 1, 1⟩⟩, [], none, [exFileZero]⟩ := by
    unfold Inference.aggregate
    rw [hB]
    rfl
  refine ⟨?_, rfl⟩
  simp only [Inference.goState, hprobe, Bool.not_true]
  rw [if_neg (by simp)]
  simp only [hagg]
  rfl

end Entwine
